import Mathlib

/-!
# Verification of the rsubmitter extraction pipeline

Shallow embedding of the `extractor` crate: the submission data model
(`src/extractor/src/models/submission.rs`), the unit normalizers
(`src/extractor/src/utils.rs`), the registration/rank machinery
(`src/extractor/proc-macro/registry/src/lib.rs`), the extractor factory
(`src/extractor/src/factory.rs`) and the shared extraction/validation shape of
the three site extractors (`src/extractor/src/extractors/{luogu,vjudge,xyd}.rs`).

Rust strings are modelled as Lean `String`s; the handful of `str` methods the
code uses (`trim`, `to_lowercase`, `contains`, `ends_with`, `replace`,
`trim_end_matches`) are given explicit executable models below.  `to_lowercase`
is modelled on the ASCII range (the non-ASCII characters appearing in the code,
such as the Chinese tags, are unaffected by lowercasing in both Rust and this
model).  `f64` parsing and arithmetic are idealised as exact rational
arithmetic over the plain decimal literals the judge pages produce (no
exponent / `inf` / `nan` forms), with the final `as i32` cast modelled as
saturating truncation toward zero.
-/

namespace Rsubmitter

/-! ## Models of the Rust string primitives -/

/-- Model of `str::trim`: drop whitespace from both ends. -/
def listTrim (l : List Char) : List Char :=
  ((l.dropWhile Char.isWhitespace).reverse.dropWhile Char.isWhitespace).reverse

/-- Model of `str::trim` on `String`. -/
def rustTrim (s : String) : String :=
  ⟨listTrim s.data⟩

/-- Model of `str::to_lowercase` (ASCII range). -/
def rustLower (s : String) : String :=
  ⟨s.data.map Char.toLower⟩

/-- Test whether `pat` occurs as a contiguous sublist of `l`. -/
def occursWithin (pat : List Char) : List Char → Bool
  | [] => pat.isEmpty
  | c :: rest => pat.isPrefixOf (c :: rest) || occursWithin pat rest

/-- Model of `str::contains(pat)`: `pat` occurs as a contiguous substring. -/
def rustContains (s pat : String) : Bool :=
  occursWithin pat.data s.data

/-- Model of `str::ends_with(pat)`. -/
def rustEndsWith (s pat : String) : Bool :=
  pat.data.isSuffixOf s.data

/-- Replace every (leftmost, non-overlapping) occurrence of the non-empty
pattern `p :: ps` by `rep`.  The extra `fuel` argument (instantiated with the
haystack length) keeps the recursion structural so that the kernel can
evaluate it; with `fuel ≥ l.length` it computes exactly `str::replace`. -/
def replaceFuel (p : Char) (ps rep : List Char) : Nat → List Char → List Char
  | 0, l => l
  | _ + 1, [] => []
  | fuel + 1, c :: rest =>
    if (p :: ps).isPrefixOf (c :: rest) then
      rep ++ replaceFuel p ps rep fuel (rest.drop ps.length)
    else
      c :: replaceFuel p ps rep fuel rest

/-- Model of `str::replace(pat, rep)` (the code only ever calls it with a
non-empty pattern; an empty pattern is returned unchanged). -/
def rustReplace (s pat rep : String) : String :=
  match pat.data with
  | [] => s
  | p :: ps => ⟨replaceFuel p ps rep.data s.data.length s.data⟩

/-- Repeatedly strip the non-empty suffix `pat` from the end; fuel-structural
model of `str::trim_end_matches` (with `fuel ≥ l.length` it strips every copy
of the suffix, exactly as the Rust function). -/
def trimEndFuel (pat : List Char) : Nat → List Char → List Char
  | 0, l => l
  | fuel + 1, l =>
    if pat ≠ [] ∧ pat.isSuffixOf l then
      trimEndFuel pat fuel (l.take (l.length - pat.length))
    else
      l

/-- Model of `str::trim_end_matches(pat)`. -/
def rustTrimEnd (s pat : String) : String :=
  ⟨trimEndFuel pat.data s.data.length s.data⟩

/-! ## Model of `f64` parsing and the `as i32` cast

`f64::from_str` is idealised as an exact parser for plain decimal literals
`[+|-] (digits [. digits*] | . digits+)`; the judge pages only ever produce
such forms, so the exponent / `inf` / `nan` branches of the Rust grammar are
never taken by this code.  Values are kept as exact unreduced fractions
`num / den` (the denominator a power of ten times the scaling constants), so
every arithmetic step of the Rust code is mirrored exactly and truncation is
integer division toward zero. -/

/-- Exact unreduced fraction `num / den` with `den > 0` in every constructed
value; the model of an `f64` intermediate. -/
structure Frac where
  num : Int
  den : Nat
deriving DecidableEq, Repr

/-- Multiplication by a natural constant (`v * 1000.0`, `v * 1024.0`). -/
def Frac.scaleMul (v : Frac) (k : Nat) : Frac :=
  ⟨v.num * k, v.den⟩

/-- Division by a natural constant (`v / 1024.0`). -/
def Frac.scaleDiv (v : Frac) (k : Nat) : Frac :=
  ⟨v.num, v.den * k⟩

/-- Numeric value of a digit list (most significant first). -/
def digitsVal (l : List Char) : Nat :=
  l.foldl (fun n c => 10 * n + (c.toNat - 48)) 0

/-- Parse an unsigned decimal literal `digits [. digits*] | . digits+`. -/
def parseUnsignedDec (l : List Char) : Option Frac :=
  let ip := l.takeWhile Char.isDigit
  let rest := l.dropWhile Char.isDigit
  match rest with
  | [] => if ip.isEmpty then none else some ⟨digitsVal ip, 1⟩
  | '.' :: fp =>
    if fp.all Char.isDigit ∧ (ip ≠ [] ∨ fp ≠ []) then
      some ⟨digitsVal ip * 10 ^ fp.length + digitsVal fp, 10 ^ fp.length⟩
    else none
  | _ => none

/-- Exact model of `f64::from_str` on plain decimal literals. -/
def parseF64 (s : String) : Option Frac :=
  match s.data with
  | '+' :: rest => parseUnsignedDec rest
  | '-' :: rest => (parseUnsignedDec rest).map fun v => ⟨-v.num, v.den⟩
  | l => parseUnsignedDec l

/-- Model of the Rust `v as i32` cast from `f64`: truncation toward zero
(`Int.tdiv` is T-division), saturating at the `i32` bounds. -/
def f64ToI32 (v : Frac) : Int :=
  max (-(2 ^ 31)) (min (v.num.tdiv v.den) (2 ^ 31 - 1))

/-! ## Data model (`src/extractor/src/models/submission.rs`) -/

/-- Enum `SubmissionLanguage` from `submission.rs` (serde wire names in comments). -/
inductive SubmissionLanguage where
  | Cpp14        -- "cpp14"
  | Cpp17        -- "cpp17" (the `#[default]` variant)
  | Cpp11        -- "cpp11"
  | Cpp          -- "cpp"
  | CppNoiLinux  -- "cpp-noilinux"
  | Cpp11NoiLinux -- "cpp11-noilinux"
  | Cpp11Clang   -- "cpp11-clang"
  | Cpp17Clang   -- "cpp17-clang"
  | C            -- "c"
  | CNoiLinux    -- "c-noilinux"
deriving DecidableEq, Repr

instance : Inhabited SubmissionLanguage := ⟨.Cpp17⟩

/-- Enum `SubmissionStatus` from `submission.rs`. -/
inductive SubmissionStatus where
  | Unknown
  | Accepted
  | WrongAnswer
  | PartiallyCorrect
  | RuntimeError
  | CompileError
  | TimeLimitExceeded
  | MemoryLimitExceeded
deriving DecidableEq, Repr

instance : Inhabited SubmissionStatus := ⟨.Unknown⟩

/-- The `Submission` record.  `i32` fields are modelled as `Int`. -/
structure Submission where
  code : String
  pid : String
  rid : String
  oj : String
  language : SubmissionLanguage
  status : SubmissionStatus
  total_time : Int
  max_memory : Int
  score : Int
deriving DecidableEq, Repr

/-- Enum `ExtractErrorKind` from `lib.rs` (the variants exercised by the claims). -/
inductive ExtractErrorKind where
  | NoExtractor (url : String)
  | MissingField (name : String)
  | EmptyContent
  | Other (msg : String)
deriving DecidableEq, Repr

/-- Struct `ExtractError`: an error kind plus the optional partially-assembled
submission (the Rust field is named `partial`, a reserved word here). -/
structure ExtractError where
  kind : ExtractErrorKind
  payload : Option Submission
deriving DecidableEq, Repr

/-- The top-level `Error` enum from `lib.rs`. -/
inductive Error where
  | NoExtractor (url : String)
  | Extract (e : ExtractError)
deriving DecidableEq, Repr

/-! ## Normalizers -/

/-- The normalization `s.replace(' ', "").to_lowercase()` used by
`SubmissionStatus::from_str`: remove every ASCII space (only spaces — other
whitespace survives), then lowercase. -/
def statusNormalize (s : String) : String :=
  rustLower ⟨s.data.filter (fun c => decide (c ≠ ' '))⟩

/-- Function `SubmissionStatus::from_str`: normalize, then match against the English
verdict table; anything else is an error carrying the normalized text. -/
def SubmissionStatus.fromStr (s : String) : Except String SubmissionStatus :=
  let txt := statusNormalize s
  if txt = "unknown" then .ok .Unknown
  else if txt = "accepted" then .ok .Accepted
  else if txt = "wronganswer" then .ok .WrongAnswer
  else if txt = "partiallycorrect" then .ok .PartiallyCorrect
  else if txt = "runtimeerror" then .ok .RuntimeError
  else if txt = "compileerror" then .ok .CompileError
  else if txt = "timelimitexceeded" then .ok .TimeLimitExceeded
  else if txt = "memorylimitexceeded" then .ok .MemoryLimitExceeded
  else .error ("unknown submission status: " ++ txt)

/-- The status classifier as used at every call site, e.g.
`txt.parse().unwrap_or(SubmissionStatus::Unknown)` in
`LuoguExtractor::extract_status_and_score`. -/
def statusClassify (s : String) : SubmissionStatus :=
  match SubmissionStatus.fromStr s with
  | .ok st => st
  | .error _ => .Unknown

/-- Function `SubmissionLanguage::from_str`: trim + lowercase, reject empty input, then
the nested `contains`-based heuristic from `submission.rs`. -/
def SubmissionLanguage.fromStr (s : String) : Except String SubmissionLanguage :=
  let txt := rustLower (rustTrim s)
  if txt.isEmpty then .error "empty language"
  else
    let has_clang := rustContains txt "clang"
    let has_noilinux := rustContains txt "noi" && rustContains txt "linux"
    if rustContains txt "c++" || rustContains txt "cpp" then
      if has_clang then
        if rustContains txt "17" then .ok .Cpp17Clang else .ok .Cpp11Clang
      else if has_noilinux then
        if rustContains txt "11" then .ok .Cpp11NoiLinux else .ok .CppNoiLinux
      else
        if rustContains txt "17" then .ok .Cpp17
        else if rustContains txt "14" then .ok .Cpp14
        else if rustContains txt "11" then .ok .Cpp11
        else .ok .Cpp
    else if rustContains txt "c" && !rustContains txt "c#" && !rustContains txt "cs" then
      if has_noilinux then .ok .CNoiLinux else .ok .C
    else .ok .Cpp17

/-- Function `utils::parse_time_to_ms`. -/
def parse_time_to_ms (s : String) : Option Int :=
  let txt := rustTrim s
  if txt.isEmpty then none
  else
    let lower := rustLower txt
    if rustContains lower "ms" then
      let num := rustTrim (rustReplace lower "ms" "")
      (parseF64 num).map f64ToI32
    else if rustContains lower "s" then
      let num := rustTrim (rustReplace lower "s" "")
      (parseF64 num).map (fun v => f64ToI32 (v.scaleMul 1000))
    else
      (parseF64 txt).map f64ToI32

/-- Function `utils::parse_mem_to_kb`. -/
def parse_mem_to_kb (s : String) : Option Int :=
  let txt := rustTrim s
  if txt.isEmpty then none
  else
    let lower := rustLower txt
    if rustEndsWith lower "mb" || rustEndsWith lower "m" then
      let num := rustTrim (rustTrimEnd (rustTrimEnd lower "mb") "m")
      (parseF64 num).map (fun v => f64ToI32 (v.scaleMul 1024))
    else if rustEndsWith lower "kb" || rustEndsWith lower "k" then
      let num := rustTrim (rustTrimEnd (rustTrimEnd lower "kb") "k")
      (parseF64 num).map f64ToI32
    else if rustEndsWith lower "b" then
      let num := rustTrim (rustTrimEnd lower "b")
      (parseF64 num).map (fun v => f64ToI32 (v.scaleDiv 1024))
    else
      (parseF64 txt).map f64ToI32


/-! ## Registry and rank functions

`#[derive(Extractable)]` (in `proc-macro/registry/src/lib.rs`) reads the
`#[extractor(name = "...", tags = [...])]` attribute and emits a rank function
via `generate_rank_impl`: start from `0u32`, add `10` per tag whose lowercased
text occurs in the lowercased URL, then add `20` if the lowercased display
name occurs in the lowercased URL. -/

/-- The rank body emitted by `generate_rank_impl name tags`. -/
def generatedRank (name : String) (tags : List String) (url : String) : Nat :=
  let score := tags.foldl
    (fun score tag => if rustContains (rustLower url) (rustLower tag) then score + 10 else score) 0
  if rustContains (rustLower url) (rustLower name) then score + 20 else score

/-- Tag for the concrete extractor type a registry `creator` constructs. -/
inductive ExtractorKind where
  | luogu
  | vjudge
  | xyd
deriving DecidableEq, Repr

/-- Struct `ExtractorRegistryItem` from `factory.rs`: display name, rank function and
constructor (the boxed trait object is modelled by its `ExtractorKind`). -/
structure ExtractorRegistryItem where
  name : String
  rank_fn : String → Nat
  creator : ExtractorKind

/-- Registration `#[extractor(name = "luogu", tags = ["洛谷"])]` on `LuoguExtractor`. -/
def luoguItem : ExtractorRegistryItem :=
  ⟨"luogu", generatedRank "luogu" ["洛谷"], .luogu⟩

/-- Registration `#[extractor(name = "vj", tags = ["vjudge", "Virtual Judge"])]` on
`VjudgeExtractor`. -/
def vjudgeItem : ExtractorRegistryItem :=
  ⟨"vj", generatedRank "vj" ["vjudge", "Virtual Judge"], .vjudge⟩

/-- Registration `#[extractor(name = "xyd", tags = ["xinyoudui", "信友队"])]` on
`XinyouduiExtractor`. -/
def xydItem : ExtractorRegistryItem :=
  ⟨"xyd", generatedRank "xyd" ["xinyoudui", "信友队"], .xyd⟩

/-- Function `extractors::registry_items()`: the fixed registration order. -/
def registry_items : List ExtractorRegistryItem :=
  [luoguItem, vjudgeItem, xydItem]

/-- Struct `ExtractorFactory` (its `extractors` vector). -/
structure ExtractorFactory where
  extractors : List ExtractorRegistryItem

/-- Constructor `ExtractorFactory::new`. -/
def ExtractorFactory.new : ExtractorFactory :=
  ⟨registry_items⟩

/-- The comparator `|a, b| b.0.cmp(&a.0)` (descending by score); `a ≼ b` holds
when `a` may precede `b` in the sorted order. -/
def rankOrder {α : Type} (a b : Nat × α) : Prop :=
  b.1 ≤ a.1

instance {α : Type} : DecidableRel (rankOrder (α := α)) := fun a b => Nat.decLe b.1 a.1

/-- Method `ExtractorFactory::create_extractor`: score every entry, sort the
candidates by descending score — Rust's `sort_by` is a stable sort, modelled
here by (stable) insertion sort — and take the first candidate if its score is
positive, otherwise fail with `NoExtractor(url)`. -/
def ExtractorFactory.create_extractor (f : ExtractorFactory) (url : String) :
    Except Error (ExtractorKind × String) :=
  let candidates := f.extractors.map fun item => (item.rank_fn url, item)
  let sorted := List.insertionSort rankOrder candidates
  match sorted.head? with
  | some (highest_score, item) =>
    if 0 < highest_score then .ok (item.creator, item.name)
    else .error (.NoExtractor url)
  | none => .error (.NoExtractor url)

/-- The public `factory::create_extractor` facade (the `Lazy<Mutex<_>>` global
holds a factory built once by `ExtractorFactory::new` and never mutated). -/
def create_extractor (url : String) : Except Error (ExtractorKind × String) :=
  ExtractorFactory.new.create_extractor url

/-! ## Shared extraction / validation pipeline

`LuoguExtractor::validate_submission`, `VjudgeExtractor::validate_submission`
and `XinyouduiExtractor::validate_submission` are textually identical; they
are embedded once. -/

/-- The shared `validate_submission`: `pid`, then `rid`, then `code`; the
first empty field produces `MissingField` carrying a clone of the whole
partially-assembled submission. -/
def validate_submission (sub : Submission) : Except Error Unit :=
  if sub.pid = "" then .error (.Extract ⟨.MissingField "pid", some sub⟩)
  else if sub.rid = "" then .error (.Extract ⟨.MissingField "rid", some sub⟩)
  else if sub.code = "" then .error (.Extract ⟨.MissingField "code", some sub⟩)
  else .ok ()

/-- The shared body of `Extractor::extract` for all three site extractors:
reject whitespace-only content with `EmptyContent`, assemble the best-effort
submission with `extract_partial`, validate, and return it.  The site-specific
HTML field location (`scraper` selectors and regexes over the document) is the
`extract_partial` parameter. -/
def extractWith (assemble : String → String → Submission)
    (url content : String) : Except Error Submission :=
  if (rustTrim content).isEmpty then .error (.Extract ⟨.EmptyContent, none⟩)
  else
    let submission := assemble url content
    match validate_submission submission with
    | .error e => .error e
    | .ok _ => .ok submission

/-! ## VJudge score derivation -/

/-- Method `VjudgeExtractor::extract_score`: the score is a function of the judge
status alone. -/
def VjudgeExtractor.extract_score (status : SubmissionStatus) : Int :=
  match status with
  | .Accepted => 100
  | .PartiallyCorrect => 50
  | _ => 0

/-- The document-derived field values feeding `VjudgeExtractor::extract_partial`
(each produced by its own selector chain over the parsed HTML). -/
structure VjudgeDocParts where
  code : String
  pid : String
  rid : String
  oj : String
  language : SubmissionLanguage
  status : SubmissionStatus
  total_time : Int
  max_memory : Int
deriving DecidableEq, Repr

/-- Assembly step of `VjudgeExtractor::extract_partial`: every field comes
from its extractor, and `score` is `extract_score(&status)`. -/
def VjudgeExtractor.assemble (parts : VjudgeDocParts) : Submission :=
  { code := parts.code
    pid := parts.pid
    rid := parts.rid
    oj := parts.oj
    language := parts.language
    status := parts.status
    total_time := parts.total_time
    max_memory := parts.max_memory
    score := VjudgeExtractor.extract_score parts.status }

/-! ## Wire format of `SubmissionStatus`

The serde `rename` attributes in `submission.rs` give each variant its
serialized string (multi-word statuses rendered with spaces). -/

/-- Serialized (wire) form of each status variant. -/
def SubmissionStatus.toWire : SubmissionStatus → String
  | .Unknown => "Unknown"
  | .Accepted => "Accepted"
  | .WrongAnswer => "Wrong Answer"
  | .PartiallyCorrect => "Partially Correct"
  | .RuntimeError => "Runtime Error"
  | .CompileError => "Compile Error"
  | .TimeLimitExceeded => "Time Limit Exceeded"
  | .MemoryLimitExceeded => "Memory Limit Exceeded"

/-! ## Spec-side formulations

These definitions follow the wording of the specification (not the Rust
control flow) and are compared with the source-translated functions above. -/

/-- The verdict table of §4.3 of the spec as an association list over
normalized text. -/
def statusTable : List (String × SubmissionStatus) :=
  [("unknown", .Unknown), ("accepted", .Accepted), ("wronganswer", .WrongAnswer),
   ("partiallycorrect", .PartiallyCorrect), ("runtimeerror", .RuntimeError),
   ("compileerror", .CompileError), ("timelimitexceeded", .TimeLimitExceeded),
   ("memorylimitexceeded", .MemoryLimitExceeded)]

/-- The time normalizer exactly as the spec sentence states it: suffix
(`ends_with`) tests, with the numeric prefix before the unit being parsed. -/
def parse_time_to_ms_spec (s : String) : Option Int :=
  let txt := rustTrim s
  if txt.isEmpty then none
  else
    let lower := rustLower txt
    if rustEndsWith lower "ms" then
      (parseF64 (rustTrim ⟨lower.data.take (lower.data.length - 2)⟩)).map f64ToI32
    else if rustEndsWith lower "s" then
      (parseF64 (rustTrim ⟨lower.data.take (lower.data.length - 1)⟩)).map
        (fun v => f64ToI32 (v.scaleMul 1000))
    else
      (parseF64 txt).map f64ToI32

/-- The time normalizer as amended: an ordered table of (`contains`-tested
unit, millisecond factor) pairs, every occurrence of the matched unit text
being removed before the numeric parse. -/
def parse_time_to_ms_amended_spec (s : String) : Option Int :=
  let txt := rustTrim s
  if txt.isEmpty then none
  else
    let lower := rustLower txt
    match [("ms", 1), ("s", 1000)].find? (fun u => rustContains lower u.1) with
    | some u =>
      (parseF64 (rustTrim (rustReplace lower u.1 ""))).map
        (fun v => f64ToI32 (v.scaleMul u.2))
    | none => (parseF64 txt).map f64ToI32

/-- The memory normalizer as §4.3 of the spec words it: unit suffixes checked
in priority order, each entry carrying its (multiplier, divisor) pair into
kibibytes. -/
def memSuffixTable : List (List String × Nat × Nat) :=
  [(["mb", "m"], (1024, 1)), (["kb", "k"], (1, 1)), (["b"], (1, 1024))]

/-- The memory normalizer per the spec's suffix-priority table. -/
def parse_mem_to_kb_spec (s : String) : Option Int :=
  let txt := rustTrim s
  if txt.isEmpty then none
  else
    let lower := rustLower txt
    match memSuffixTable.find? (fun e => e.1.any (fun suf => rustEndsWith lower suf)) with
    | some e =>
      let num := rustTrim (e.1.foldl rustTrimEnd lower)
      (parseF64 num).map (fun v => f64ToI32 ((v.scaleMul e.2.1).scaleDiv e.2.2))
    | none => (parseF64 txt).map f64ToI32

/-- First element of maximal first component (ties resolved to the earlier
element): the selection policy the spec ascribes to the factory. -/
def firstMax {α : Type} : List (Nat × α) → Option (Nat × α)
  | [] => none
  | x :: xs =>
    match firstMax xs with
    | none => some x
    | some y => if y.1 ≤ x.1 then some x else some y

/-! ## Concrete fixtures used by witnesses -/

/-- A fully-populated submission. -/
def goodSub : Submission :=
  ⟨"int main() {}", "P4198", "241494617", "luogu", .Cpp17, .Accepted, 2330, 1587, 100⟩

/-- A submission with every required field empty. -/
def emptySub : Submission :=
  ⟨"", "", "", "vj", .Cpp17, .Unknown, 0, 0, 0⟩

/-- A submission missing only `rid`. -/
def noRidSub : Submission :=
  ⟨"int main() {}", "P1", "", "luogu", .Cpp17, .Accepted, 0, 0, 100⟩


/-! ## Helper lemmas -/

/-- Scaling by 1 with `scaleMul` is the identity. -/
theorem Frac.scaleMul_one (v : Frac) : v.scaleMul 1 = v := by
  simp [Frac.scaleMul]

/-- Scaling by 1 with `scaleDiv` is the identity. -/
theorem Frac.scaleDiv_one (v : Frac) : v.scaleDiv 1 = v := by
  simp [Frac.scaleDiv]

/-- Lookup skips a key that differs from the query. -/
theorem lookup_cons_of_ne {β : Type} {k a : String} {b : β} {l : List (String × β)}
    (h : a ≠ k) : List.lookup a ((k, b) :: l) = List.lookup a l := by
  simp [List.lookup, beq_eq_false_iff_ne.mpr h]

/-- Folding the generated per-tag `score += 10` checks counts the matching
tags. -/
theorem foldl_tag_score (p : String → Bool) (a : Nat) (tags : List String) :
    tags.foldl (fun score tag => if p tag then score + 10 else score) a
      = a + 10 * tags.countP p := by
  induction tags generalizing a with
  | nil => simp
  | cons t ts ih =>
    by_cases h : p t <;> simp [List.countP_cons, h, ih] <;> ring

/-- Head of inserting into the empty list. -/
theorem head_orderedInsert_nil {α : Type} (x : Nat × α) :
    (List.orderedInsert rankOrder x []).head? = some x := rfl

/-- Head of an ordered insert into a non-empty list: the new element wins
exactly when its score is at least the old head's (so an earlier-inserted
element keeps its place on ties). -/
theorem head_orderedInsert_cons {α : Type} (x b : Nat × α) (l : List (Nat × α)) :
    (List.orderedInsert rankOrder x (b :: l)).head? =
      some (if b.1 ≤ x.1 then x else b) := by
  simp only [List.orderedInsert]
  by_cases h : b.1 ≤ x.1
  · have hr : rankOrder x b := h
    rw [if_pos hr, if_pos h]
    rfl
  · have hr : ¬ rankOrder x b := h
    rw [if_neg hr, if_neg h]
    rfl

/-- The head of the stable descending sort is the first maximal-score
element. -/
theorem head_insertionSort {α : Type} (l : List (Nat × α)) :
    (List.insertionSort rankOrder l).head? = firstMax l := by
  induction l with
  | nil => rfl
  | cons x xs ih =>
    simp only [List.insertionSort]
    cases hs : List.insertionSort rankOrder xs with
    | nil =>
      have hend : firstMax xs = none := by rw [← ih, hs]; rfl
      simp [firstMax, hend, head_orderedInsert_nil]
    | cons b L =>
      have hb : firstMax xs = some b := by rw [← ih, hs]; rfl
      rw [head_orderedInsert_cons]
      simp only [firstMax, hb]
      split_ifs <;> rfl

/-- Selection `firstMax` is `none` only on the empty list. -/
theorem firstMax_none {α : Type} {l : List (Nat × α)} (h : firstMax l = none) :
    l = [] := by
  cases l with
  | nil => rfl
  | cons x xs =>
    cases hf : firstMax xs with
    | none => simp [firstMax, hf] at h
    | some y =>
      simp only [firstMax, hf] at h
      split_ifs at h <;> simp at h

/-- Selection `firstMax` returns an element of maximal score, and every element before
it in the list has strictly smaller score. -/
theorem firstMax_spec {α : Type} :
    ∀ {l : List (Nat × α)} {m : Nat × α}, firstMax l = some m →
      ∃ l₁ l₂, l = l₁ ++ m :: l₂ ∧ (∀ y ∈ l, y.1 ≤ m.1) ∧ ∀ y ∈ l₁, y.1 < m.1 := by
  intro l
  induction l with
  | nil => intro m h; cases h
  | cons x xs ih =>
    intro m h
    cases hf : firstMax xs with
    | none =>
      have hxs : xs = [] := firstMax_none hf
      subst hxs
      have hm : m = x := by simp [firstMax] at h; exact h.symm
      subst hm
      exact ⟨[], [], rfl, by simp, by simp⟩
    | some y =>
      simp only [firstMax, hf] at h
      obtain ⟨l₁, l₂, hdec, hmax, hpre⟩ := ih hf
      by_cases hle : y.1 ≤ x.1
      · rw [if_pos hle] at h
        obtain rfl : x = m := by injection h
        refine ⟨[], xs, rfl, ?_, by simp⟩
        intro z hz
        rcases List.mem_cons.mp hz with rfl | hz
        · exact le_refl _
        · exact le_trans (hmax z hz) hle
      · rw [if_neg hle] at h
        obtain rfl : y = m := by injection h
        refine ⟨x :: l₁, l₂, by rw [hdec, List.cons_append], ?_, ?_⟩
        · intro z hz
          rcases List.mem_cons.mp hz with rfl | hz
          · exact le_of_lt (Nat.lt_of_not_le hle)
          · exact hmax z hz
        · intro z hz
          rcases List.mem_cons.mp hz with rfl | hz
          · exact Nat.lt_of_not_le hle
          · exact hpre z hz

/-- Decompose a list from a decomposition of its image under `map`. -/
theorem map_eq_append_cons {α β : Type} (g : α → β) :
    ∀ {l : List α} {L₁ L₂ : List β} {y : β}, l.map g = L₁ ++ y :: L₂ →
      ∃ l₁ x l₂, l = l₁ ++ x :: l₂ ∧ l₁.map g = L₁ ∧ g x = y := by
  intro l
  induction l with
  | nil =>
    intro L₁ L₂ y h
    rw [List.map_nil] at h
    exact absurd h.symm (List.append_ne_nil_of_right_ne_nil _ (List.cons_ne_nil _ _))
  | cons a as ih =>
    intro L₁ L₂ y h
    cases L₁ with
    | nil =>
      simp only [List.map_cons, List.nil_append, List.cons.injEq] at h
      exact ⟨[], a, as, rfl, rfl, h.1⟩
    | cons b L =>
      simp only [List.map_cons, List.cons_append, List.cons.injEq] at h
      obtain ⟨l₁, x, l₂, h1, h2, h3⟩ := ih h.2
      exact ⟨a :: l₁, x, l₂, by rw [h1, List.cons_append], by simp [h.1, h2], h3⟩

/-! ## Claims -/

/-- C1: for every factory and URL, `create_extractor` ranks every registered
entry; when it succeeds it returns the creator and display name of a
maximum-scoring entry with strictly positive score such that every entry
registered before it scores strictly less (first-registered wins ties), and
it fails exactly with `NoExtractor(url)` when every entry (possibly none)
scores 0. -/
theorem create_extractor_policy (f : ExtractorFactory) (url : String) :
    match f.create_extractor url with
    | .ok (kind, name) =>
        ∃ pre item post,
          f.extractors = pre ++ item :: post ∧
          kind = item.creator ∧ name = item.name ∧
          0 < item.rank_fn url ∧
          (∀ e ∈ f.extractors, e.rank_fn url ≤ item.rank_fn url) ∧
          (∀ e ∈ pre, e.rank_fn url < item.rank_fn url)
    | .error err =>
        err = .NoExtractor url ∧ ∀ e ∈ f.extractors, e.rank_fn url = 0 := by
  unfold ExtractorFactory.create_extractor
  simp only [head_insertionSort]
  cases hfm : firstMax (f.extractors.map fun item => (item.rank_fn url, item)) with
  | none =>
    simp only [hfm]
    have hnil : f.extractors = [] := by
      have h2 := firstMax_none hfm
      cases hext : f.extractors with
      | nil => rfl
      | cons a l => rw [hext] at h2; simp at h2
    refine ⟨by trivial, ?_⟩
    rw [hnil]
    intro e he
    cases he
  | some p =>
    obtain ⟨s, item⟩ := p
    simp only [hfm]
    obtain ⟨l₁, l₂, hdec, hmax, hpre⟩ := firstMax_spec hfm
    obtain ⟨pre, x, post, hx1, hx2, hx3⟩ := map_eq_append_cons _ hdec
    have hxitem : x = item := congrArg Prod.snd hx3
    have hxs : x.rank_fn url = s := congrArg Prod.fst hx3
    subst hxitem
    by_cases hpos : 0 < s
    · rw [if_pos hpos]
      refine ⟨pre, x, post, hx1, rfl, rfl, hxs ▸ hpos, ?_, ?_⟩
      · intro e he
        have hmem : (e.rank_fn url, e) ∈
            f.extractors.map fun item => (item.rank_fn url, item) :=
          List.mem_map_of_mem _ he
        have := hmax _ hmem
        rw [hxs]
        exact this
      · intro e he
        have hmem : (e.rank_fn url, e) ∈ l₁ := by
          rw [← hx2]
          exact List.mem_map_of_mem _ he
        have := hpre _ hmem
        rw [hxs]
        exact this
    · rw [if_neg hpos]
      have hs0 : s = 0 := Nat.eq_zero_of_not_pos hpos
      refine ⟨rfl, ?_⟩
      intro e he
      have hmem : (e.rank_fn url, e) ∈
          f.extractors.map fun item => (item.rank_fn url, item) :=
        List.mem_map_of_mem _ he
      have := hmax _ hmem
      simp only [hs0] at this
      exact Nat.le_zero.mp this

/-- C2: for every registered extractor (display name and tag list) and every
URL, the generated rank is 10 times the number of registered tags occurring
case-insensitively in the URL, plus 20 when the display name occurs
case-insensitively in the URL; the three registered extractors all use this
generated rank. -/
theorem rank_formula :
    (∀ (name : String) (tags : List String) (url : String),
        generatedRank name tags url =
          10 * (tags.countP fun tag => rustContains (rustLower url) (rustLower tag)) +
          (if rustContains (rustLower url) (rustLower name) then 20 else 0)) ∧
    luoguItem.rank_fn = generatedRank "luogu" ["洛谷"] ∧
    vjudgeItem.rank_fn = generatedRank "vj" ["vjudge", "Virtual Judge"] ∧
    xydItem.rank_fn = generatedRank "xyd" ["xinyoudui", "信友队"] := by
  refine ⟨fun name tags url => ?_, rfl, rfl, rfl⟩
  unfold generatedRank
  rw [foldl_tag_score]
  by_cases h : rustContains (rustLower url) (rustLower name) <;> simp [h] <;> ring

/-- C9: in the VJudge assembly the score of the submission is a function of
the judge status alone: Accepted gives 100, PartiallyCorrect gives 50, and
every other status gives 0. -/
theorem vjudge_score_from_status :
    (∀ parts : VjudgeDocParts,
        (VjudgeExtractor.assemble parts).score =
          (if (VjudgeExtractor.assemble parts).status = .Accepted then 100
           else if (VjudgeExtractor.assemble parts).status = .PartiallyCorrect then 50
           else 0)) ∧
    (∀ st, VjudgeExtractor.extract_score st =
        if st = .Accepted then 100 else if st = .PartiallyCorrect then 50 else 0) := by
  constructor
  · intro parts
    cases h : parts.status <;>
      simp [VjudgeExtractor.assemble, VjudgeExtractor.extract_score, h]
  · intro st
    cases st <;> rfl

/-- C10: converting any status variant to its wire-format string and parsing
it back with the status parser yields exactly the original variant. -/
theorem status_wire_roundtrip :
    ∀ st : SubmissionStatus, SubmissionStatus.fromStr st.toWire = .ok st := by
  intro st
  cases st <;> rfl

/-- C3: whenever a site extractor's `extract` (the shared pipeline around any
`extract_partial`) returns a success, the returned submission has non-empty
`pid`, `rid` and `code`. -/
theorem extract_success_fields (ep : String → String → Submission)
    (url content : String) (sub : Submission)
    (h : extractWith ep url content = .ok sub) :
    sub.pid ≠ "" ∧ sub.rid ≠ "" ∧ sub.code ≠ "" := by
  by_cases h0 : (rustTrim content).isEmpty
  · simp [extractWith, h0] at h
  · by_cases h1 : (ep url content).pid = ""
    · simp [extractWith, validate_submission, h0, h1] at h
    · by_cases h2 : (ep url content).rid = ""
      · simp [extractWith, validate_submission, h0, h1, h2] at h
      · by_cases h3 : (ep url content).code = ""
        · simp [extractWith, validate_submission, h0, h1, h2, h3] at h
        · have hs : ep url content = sub := by
            simpa [extractWith, validate_submission, h0, h1, h2, h3] using h
          exact hs ▸ ⟨h1, h2, h3⟩

/-- C3 witness: a concrete successful extraction has the three required
fields non-empty. -/
theorem extract_success_fields_witness :
    goodSub.pid ≠ "" ∧ goodSub.rid ≠ "" ∧ goodSub.code ≠ "" :=
  extract_success_fields (fun _ _ => goodSub) "url" "content" goodSub rfl

/-- C4: for non-whitespace content, validation inside the shared pipeline
checks `pid`, then `rid`, then `code`; the first empty field determines the
`MissingField` error, which carries the whole partially-assembled submission
as its payload. -/
theorem validate_field_order (ep : String → String → Submission)
    (url content : String) (h : ¬ (rustTrim content).isEmpty = true) :
    ((ep url content).pid = "" →
        extractWith ep url content =
          .error (.Extract ⟨.MissingField "pid", some (ep url content)⟩)) ∧
    ((ep url content).pid ≠ "" → (ep url content).rid = "" →
        extractWith ep url content =
          .error (.Extract ⟨.MissingField "rid", some (ep url content)⟩)) ∧
    ((ep url content).pid ≠ "" → (ep url content).rid ≠ "" →
        (ep url content).code = "" →
        extractWith ep url content =
          .error (.Extract ⟨.MissingField "code", some (ep url content)⟩)) := by
  refine ⟨fun h1 => ?_, fun h1 h2 => ?_, fun h1 h2 h3 => ?_⟩
  · simp [extractWith, validate_submission, h, h1]
  · simp [extractWith, validate_submission, h, h1, h2]
  · simp [extractWith, validate_submission, h, h1, h2, h3]

/-- C4 witness: with every required field empty the reported error is
`MissingField("pid")` carrying the partial submission; with only `rid`
missing it is `MissingField("rid")`. -/
theorem validate_field_order_witness :
    extractWith (fun _ _ => emptySub) "url" "x" =
        .error (.Extract ⟨.MissingField "pid", some emptySub⟩) ∧
    extractWith (fun _ _ => noRidSub) "url" "x" =
        .error (.Extract ⟨.MissingField "rid", some noRidSub⟩) :=
  ⟨(validate_field_order (fun _ _ => emptySub) "url" "x" (by decide)).1 rfl,
   (validate_field_order (fun _ _ => noRidSub) "url" "x" (by decide)).2.1
     (by decide) rfl⟩

/-- C5 counterexample: the classifier has no native-language verdict table.
The native string "通过" is parsed to an error by `from_str` and hence
classified as Unknown, not Accepted; likewise only ASCII spaces are removed,
so tab-separated text is not recognized either. -/
theorem status_native_not_mapped :
    statusClassify "通过" = .Unknown ∧
    SubmissionStatus.Unknown ≠ SubmissionStatus.Accepted ∧
    SubmissionStatus.fromStr "通过" = .error "unknown submission status: 通过" ∧
    statusClassify "\taccepted" = .Unknown := by
  exact ⟨rfl, by decide, rfl, rfl⟩

/-- C5 (amended): the status classifier removes ASCII spaces and lowercases
its input, then looks the normalized text up in the fixed English verdict
table; every unrecognized input — including native-language verdicts such as
"通过" — yields Unknown rather than an error. -/
theorem status_classifier_amended :
    (∀ s : String,
        statusClassify s = (statusTable.lookup (statusNormalize s)).getD .Unknown) ∧
    statusClassify "accepted" = .Accepted ∧
    statusClassify " Ac cepted " = .Accepted ∧
    statusClassify "通过" = .Unknown := by
  refine ⟨fun s => ?_, rfl, rfl, rfl⟩
  unfold statusClassify SubmissionStatus.fromStr statusTable
  by_cases h1 : statusNormalize s = "unknown"
  · simp [List.lookup, h1]
  rw [lookup_cons_of_ne h1]
  by_cases h2 : statusNormalize s = "accepted"
  · simp [List.lookup, h1, h2]
  rw [lookup_cons_of_ne h2]
  by_cases h3 : statusNormalize s = "wronganswer"
  · simp [List.lookup, h1, h2, h3]
  rw [lookup_cons_of_ne h3]
  by_cases h4 : statusNormalize s = "partiallycorrect"
  · simp [List.lookup, h1, h2, h3, h4]
  rw [lookup_cons_of_ne h4]
  by_cases h5 : statusNormalize s = "runtimeerror"
  · simp [List.lookup, h1, h2, h3, h4, h5]
  rw [lookup_cons_of_ne h5]
  by_cases h6 : statusNormalize s = "compileerror"
  · simp [List.lookup, h1, h2, h3, h4, h5, h6]
  rw [lookup_cons_of_ne h6]
  by_cases h7 : statusNormalize s = "timelimitexceeded"
  · simp [List.lookup, h1, h2, h3, h4, h5, h6, h7]
  rw [lookup_cons_of_ne h7]
  by_cases h8 : statusNormalize s = "memorylimitexceeded"
  · simp [List.lookup, h1, h2, h3, h4, h5, h6, h7, h8]
  rw [lookup_cons_of_ne h8]
  simp [List.lookup, h1, h2, h3, h4, h5, h6, h7, h8]

/-- C6 counterexample: empty language text is not recognized as any C/C++
variant, yet `from_str` fails with an error instead of returning the default
Cpp17. -/
theorem language_empty_errors :
    SubmissionLanguage.fromStr "" = .error "empty language" ∧
    SubmissionLanguage.fromStr "" ≠ .ok .Cpp17 := by
  refine ⟨rfl, fun h => ?_⟩
  rw [show SubmissionLanguage.fromStr "" = .error "empty language" from rfl] at h
  exact Except.noConfusion h

/-- C6 (amended): every language text that is non-empty after trimming and
matches neither the C++ heuristic (`"c++"`/`"cpp"` substring) nor the C
heuristic (`"c"` substring without `"c#"`/`"cs"`) parses to the default
Cpp17; only empty (or whitespace-only) input makes the parse fail. -/
theorem language_default_amended (s : String)
    (h0 : (rustLower (rustTrim s)).isEmpty = false)
    (h1 : (rustContains (rustLower (rustTrim s)) "c++"
            || rustContains (rustLower (rustTrim s)) "cpp") = false)
    (h2 : (rustContains (rustLower (rustTrim s)) "c"
            && !rustContains (rustLower (rustTrim s)) "c#"
            && !rustContains (rustLower (rustTrim s)) "cs") = false) :
    SubmissionLanguage.fromStr s = .ok .Cpp17 := by
  unfold SubmissionLanguage.fromStr
  simp [h0, h1, h2]

/-- C6 witness: "Java 8" is unrecognized and parses to the default Cpp17. -/
theorem language_default_amended_witness :
    SubmissionLanguage.fromStr "Java 8" = .ok .Cpp17 :=
  language_default_amended "Java 8" (by decide) (by decide) (by decide)

/-- C7 counterexample: the parser tests `contains`, not `ends_with`.  On
"1ms2" — which ends with neither "ms" nor "s" and is not a bare number — the
claim requires an unparseable result, but the code strips the inner "ms" and
returns 12. -/
theorem parse_time_contains_not_endswith :
    parse_time_to_ms "1ms2" = some 12 ∧
    parse_time_to_ms_spec "1ms2" = none ∧
    parse_time_to_ms "1ms2" ≠ parse_time_to_ms_spec "1ms2" := by
  refine ⟨by decide, rfl, by decide⟩

/-- C7 (amended): the time parser trims its input; if the lowercased text
contains "ms" it removes every "ms" occurrence and parses the remainder as
milliseconds; else if it contains "s" it removes every "s" and parses the
remainder as seconds times 1000; otherwise it parses the bare number as
milliseconds — truncating to an integer, with empty or non-numeric input
unparseable.  The spec's own examples hold. -/
theorem parse_time_amended :
    (∀ s : String, parse_time_to_ms s = parse_time_to_ms_amended_spec s) ∧
    parse_time_to_ms "100ms" = some 100 ∧
    parse_time_to_ms "0.2s" = some 200 ∧
    parse_time_to_ms "  50  " = some 50 ∧
    parse_time_to_ms "" = none := by
  refine ⟨fun s => ?_, by decide, by decide, by decide, rfl⟩
  unfold parse_time_to_ms parse_time_to_ms_amended_spec
  by_cases h0 : (rustTrim s).isEmpty
  · simp [h0]
  · by_cases h1 : rustContains (rustLower (rustTrim s)) "ms"
    · simp [h0, h1, List.find?, Frac.scaleMul_one]
    · by_cases h2 : rustContains (rustLower (rustTrim s)) "s"
      · simp [h0, h1, h2, List.find?]
      · simp [h0, h1, h2, List.find?]

/-- C8: the memory parser trims its input and checks unit suffixes in
priority order — "mb"/"m" multiplies the numeric value by 1024, "kb"/"k"
keeps it, a plain trailing "b" divides it by 1024, and a bare number is
already kibibytes — parsing the number exactly and truncating at the end.
The spec's examples hold. -/
theorem parse_mem_suffix_table :
    (∀ s : String, parse_mem_to_kb s = parse_mem_to_kb_spec s) ∧
    parse_mem_to_kb "1MB" = some 1024 ∧
    parse_mem_to_kb "512K" = some 512 ∧
    parse_mem_to_kb "256" = some 256 := by
  refine ⟨fun s => ?_, by decide, by decide, by decide⟩
  unfold parse_mem_to_kb parse_mem_to_kb_spec memSuffixTable
  by_cases h0 : (rustTrim s).isEmpty
  · simp [h0]
  · by_cases h1 : (rustEndsWith (rustLower (rustTrim s)) "mb"
        || rustEndsWith (rustLower (rustTrim s)) "m") = true
    · simp [h0, h1, List.find?, List.any, Frac.scaleDiv_one]
    · by_cases h2 : (rustEndsWith (rustLower (rustTrim s)) "kb"
          || rustEndsWith (rustLower (rustTrim s)) "k") = true
      · simp [h0, h1, h2, List.find?, List.any, Frac.scaleMul_one, Frac.scaleDiv_one]
      · by_cases h3 : rustEndsWith (rustLower (rustTrim s)) "b"
        · simp [h0, h1, h2, h3, List.find?, List.any, Frac.scaleMul_one]
        · simp [h0, h1, h2, h3, List.find?, List.any]

/-- Sanity check on the concrete registry: a Luogu record URL routes to the
Luogu extractor, a VJudge solution URL to the VJudge extractor, and an
unmatched URL yields `NoExtractor`. -/
theorem create_extractor_concrete_cases :
    create_extractor "https://www.luogu.com.cn/record/241494617" = .ok (.luogu, "luogu") ∧
    create_extractor "https://vjudge.net/solution/65377961" = .ok (.vjudge, "vj") ∧
    create_extractor "https://example.com/" = .error (.NoExtractor "https://example.com/") :=
  ⟨rfl, rfl, rfl⟩

end Rsubmitter
